import Mathlib

/-!
# Verification of the `pocketflow.js` orchestrator (glim repository)

Shallow embedding of `src/pocketflow.js`: the retry-wrapped step (`Node`),
the sequential and parallel batch steps (`BatchNode`, `ParallelBatchNode`),
and the graph orchestrator (`Flow._orchestrate` / `BaseNode._run` /
`BaseNode.getNextNode` / `BaseNode.clone`).

Modelling conventions:
* JavaScript exceptions are modelled with explicit result values
  (`Except` for a user-supplied function, `RunResult` / `JsErr` for the
  machinery, which can also raise its own `Error` objects).
* `async`/`await` sequencing is modelled as ordinary sequential composition;
  the only genuine concurrency (`Promise.all`) is modelled both by its
  deterministic value semantics (`promiseAll`) and by an explicit
  completion-order model (`joinInOrder`) quantified over arbitrary
  completion orders.
* A step's `exec` is given the value of `this.currentRetry` at call time as
  an extra oracle argument (`Nat`), so that behaviour that differs between
  attempts — and any observation of leftover attempt state — is expressible.
* The inter-retry `wait`/`setTimeout` sleep (pocketflow.js lines 111-115)
  only delays execution and produces no value, so it has no effect in this
  value-level model; the `wait` field is kept on the structure.
* `_params` / `setParams` handling is omitted: no claim under study depends
  on parameter propagation, and parameters are read-only during a traversal.
-/

/-- Result of a retry-wrapped `_exec` call (`Node._exec`, pocketflow.js
lines 98-120): a normal return value, a propagated JavaScript exception
thrown by `execFallback`, or the defensive
`throw new Error("Unexpected end of retry loop")` after the loop. -/
inductive RunResult (E A : Type) where
  | ok : A → RunResult E A
  | err : E → RunResult E A
  | loopEnd : RunResult E A
deriving DecidableEq, Repr

/-- The retry-relevant data of a `Node` (pocketflow.js lines 86-121):
`maxRetries` and `wait` from the constructor, the overridable `exec` and
`execFallback`.  `exec` receives the current value of `this.currentRetry`
(0-based attempt index) as an oracle argument. -/
structure RetryNode (P E A : Type) where
  maxRetries : Nat
  wait : Nat
  exec : Nat → P → Except E A
  execFallback : P → E → Except E A

/-- Default `Node.execFallback` (pocketflow.js lines 94-96): re-raise the
error. -/
def defaultExecFallback (P E A : Type) : P → E → Except E A :=
  fun _ e => Except.error e

/-- The `for` loop of `Node._exec` (pocketflow.js lines 100-117), entered
with `this.currentRetry = cur`:
while `currentRetry < maxRetries`, try `exec`; on success return its value;
on an exception, if `currentRetry === maxRetries - 1` return
`execFallback(prepRes, e)` (whose own exception propagates), otherwise
sleep `wait` seconds and continue with `currentRetry + 1`.  Falling out of
the loop reaches `throw new Error("Unexpected end of retry loop")`
(line 119), modelled as `RunResult.loopEnd`.
The recursion is phrased on the number `maxRetries - cur` of remaining loop
iterations, which is 0 exactly when the loop guard `currentRetry < maxRetries`
fails; `execLoop_eq` below recovers the guard-first unfolding literally. -/
def execLoopGo {P E A : Type} (n : RetryNode P E A) (p : P) :
    Nat → Nat → RunResult E A
  | 0, _ => RunResult.loopEnd
  | left + 1, cur =>
    match n.exec cur p with
    | Except.ok a => RunResult.ok a
    | Except.error e =>
      if cur = n.maxRetries - 1 then
        match n.execFallback p e with
        | Except.ok a => RunResult.ok a
        | Except.error e2 => RunResult.err e2
      else
        execLoopGo n p left (cur + 1)

/-- The loop of `Node._exec` entered with `this.currentRetry = cur`. -/
def execLoop {P E A : Type} (n : RetryNode P E A) (p : P) (cur : Nat) :
    RunResult E A :=
  execLoopGo n p (n.maxRetries - cur) cur

/-- `Node._exec(prepRes)`: the loop initialisation `this.currentRetry = 0`
(pocketflow.js line 101) starts the loop at attempt index 0 regardless of
any value stored in the `currentRetry` field of the (cloned) node. -/
def Node_exec {P E A : Type} (n : RetryNode P E A) (p : P) : RunResult E A :=
  execLoop n p 0

/-- Instrumented version of `execLoopGo`: additionally returns the list of
`currentRetry` values at which `exec` was called, and the number of times
`execFallback` was invoked. -/
def execLoopTGo {P E A : Type} (n : RetryNode P E A) (p : P) :
    Nat → Nat → RunResult E A × List Nat × Nat
  | 0, _ => (RunResult.loopEnd, [], 0)
  | left + 1, cur =>
    match n.exec cur p with
    | Except.ok a => (RunResult.ok a, [cur], 0)
    | Except.error e =>
      if cur = n.maxRetries - 1 then
        match n.execFallback p e with
        | Except.ok a => (RunResult.ok a, [cur], 1)
        | Except.error e2 => (RunResult.err e2, [cur], 1)
      else
        match execLoopTGo n p left (cur + 1) with
        | (r, att, c) => (r, cur :: att, c)

/-- Instrumented version of `execLoop`. -/
def execLoopT {P E A : Type} (n : RetryNode P E A) (p : P) (cur : Nat) :
    RunResult E A × List Nat × Nat :=
  execLoopTGo n p (n.maxRetries - cur) cur

/-- The value a batch `_exec` receives from `prep`, as seen by the guard
`if (!items || !Array.isArray(items)) return []` (pocketflow.js lines 125
and 138): `null`/`undefined` (or any other falsy value), a truthy value
that is not an array, or an actual array of items. -/
inductive PrepVal (P : Type) where
  | nullish : PrepVal P
  | nonArray : PrepVal P
  | arr : List P → PrepVal P

/-- The `for (const item of items)` loop of `BatchNode._exec`
(pocketflow.js lines 127-131): run `super._exec(item)` (the retry-wrapped
`Node._exec`) on each item in order, pushing results; an exception thrown
by any item's cycle aborts the loop and propagates. -/
def batchGo {P E A : Type} (n : RetryNode P E A) : List P → RunResult E (List A)
  | [] => RunResult.ok []
  | item :: rest =>
    match Node_exec n item with
    | RunResult.ok a =>
      match batchGo n rest with
      | RunResult.ok results => RunResult.ok (a :: results)
      | RunResult.err e => RunResult.err e
      | RunResult.loopEnd => RunResult.loopEnd
    | RunResult.err e => RunResult.err e
    | RunResult.loopEnd => RunResult.loopEnd

/-- `BatchNode._exec(items)` (pocketflow.js lines 124-133). -/
def BatchNode_exec {P E A : Type} (n : RetryNode P E A) :
    PrepVal P → RunResult E (List A)
  | PrepVal.arr items => batchGo n items
  | _ => RunResult.ok []

/-- Value semantics of `Promise.all` over already-modelled item results:
fulfil with the list of values, in input order, when every promise
fulfils; reject when any promise rejects.  (Which rejection wins when
several items reject depends on completion timing in JavaScript; this
determinisation picks the first in input order, and no theorem below
depends on the choice.) -/
def promiseAll {E A : Type} : List (RunResult E A) → RunResult E (List A)
  | [] => RunResult.ok []
  | r :: rs =>
    match r with
    | RunResult.ok a =>
      match promiseAll rs with
      | RunResult.ok results => RunResult.ok (a :: results)
      | RunResult.err e => RunResult.err e
      | RunResult.loopEnd => RunResult.loopEnd
    | RunResult.err e => RunResult.err e
    | RunResult.loopEnd => RunResult.loopEnd

/-- `ParallelBatchNode._exec(items)` (pocketflow.js lines 137-145):
`Promise.all(items.map(item => super._exec(item)))` behind the same
non-array guard. -/
def ParallelBatchNode_exec {P E A : Type} (n : RetryNode P E A) :
    PrepVal P → RunResult E (List A)
  | PrepVal.arr items => promiseAll (items.map (Node_exec n))
  | _ => RunResult.ok []

/-- Completion-order model of the `Promise.all` join in the all-fulfilled
case: each item's asynchronous work finishes at some point of a completion
order (a list of item indices), and on completion its result is stored in
the output slot of its own index.  `settleStep res acc i` settles item `i`
into the slot list `acc`. -/
def settleStep {A : Type} (res : List A) (acc : List (Option A)) (i : Nat) :
    List (Option A) :=
  match res[i]? with
  | some a => acc.set i (some a)
  | none => acc

/-- Run the settlements of all items over initially empty slots, in the
given completion order. -/
def joinInOrder {A : Type} (res : List A) (order : List Nat) : List (Option A) :=
  order.foldl (settleStep res) (List.replicate res.length none)

/-- Errors escaping the orchestration machinery: an exception raised by a
step's `exec`/`execFallback` (`user`), the defensive
`Error("Unexpected end of retry loop")` (`loopEnd`), and
`Error("Flow has no start node")` thrown by `Flow._orchestrate`
(pocketflow.js line 157, `noStart`). -/
inductive JsErr (E : Type) where
  | user : E → JsErr E
  | loopEnd : JsErr E
  | noStart : JsErr E
deriving DecidableEq, Repr

/-- The behaviour of a retry step used inside a graph: the overridable
`prep`, the retry data (`maxRetries`/`exec`/`execFallback`), the mutable
`currentRetry` field stored on the template object (copied by
`BaseNode.clone`, pocketflow.js lines 65-83, and re-initialised to 0 by
the loop header of `Node._exec`, line 101), and the overridable `post`.
`prep` and `post` may mutate the shared context (first component) and
`post` returns the action (`none` models returning `undefined`). -/
structure StepBehavior (S P E A : Type) where
  prep : S → S × P
  retry : RetryNode P E A
  currentRetry : Nat
  post : S → P → A → S × Option String

/-- A graph node is either a retry step (`Node`) or a nested orchestrator
(`Flow`), the latter holding its start node reference and its own
`prep`/`post` (whose prepare result, used only for parameter merging in
the source, is omitted with the rest of the parameter plumbing). -/
inductive NodeDef (S P E A : Type) where
  | node : StepBehavior S P E A → NodeDef S P E A
  | flow : Option Nat → (S → S) → (S → S × Option String) → NodeDef S P E A

/-- A step definition together with its successor map `_successors`
(action label → node id; a JavaScript `Map`, modelled as an association
list looked up by `List.lookup`). -/
structure GNode (S P E A : Type) where
  body : NodeDef S P E A
  succ : List (String × Nat)

/-- A graph of step definitions addressed by node id.  Node objects are
identified by id; `clone` (pocketflow.js lines 65-83) gives each visit an
independent copy of the definition's mutable state, so a visit always
starts from the stored template fields found here. -/
structure Graph (S P E A : Type) where
  defs : Nat → Option (GNode S P E A)

/-- `BaseNode.getNextNode(action)` (pocketflow.js lines 54-63):
`action || "default"` replaces `undefined` (and the falsy empty string)
with the reserved default label, then the successor map is consulted;
a missing edge yields `undefined` (traversal ends). -/
def getNextNode (succ : List (String × Nat)) (action : Option String) :
    Option Nat :=
  let nextAction :=
    match action with
    | none => "default"
    | some s => if s = "" then "default" else s
  List.lookup nextAction succ

/-- One visit of `current._run(shared)` inside `Flow._orchestrate`
(pocketflow.js lines 162-167 together with `BaseNode._run`, lines 23-27,
and `Flow._run`, lines 170-176 for a nested flow):
for a retry node, `prep`, then the retry-wrapped `_exec` (starting at
attempt index 0), then `post` — an exception from the retry machinery
propagates and `post` is skipped; for a nested flow, its `prep`, then its
own orchestration (through the callback `orch`), then its `post`.
Returns the updated context and the action, plus the visit trace
(node id and the attempt indices used at that visit); `none` means the
computation was cut off by the fuel bound. -/
def runNodeWith {S P E A : Type} (g : Graph S P E A)
    (orch : Option Nat → S → Option (Except (JsErr E) S × List (Nat × List Nat)))
    (id : Nat) (s : S) :
    Option (Except (JsErr E) (S × Option String) × List (Nat × List Nat)) :=
  match g.defs id with
  | none => none
  | some gn =>
    match gn.body with
    | NodeDef.node b =>
      match b.prep s with
      | (s1, p) =>
        match execLoopT b.retry p 0 with
        | (RunResult.ok a, att, _) =>
          match b.post s1 p a with
          | (s2, act) => some (Except.ok (s2, act), [(id, att)])
        | (RunResult.err e, att, _) =>
          some (Except.error (JsErr.user e), [(id, att)])
        | (RunResult.loopEnd, att, _) =>
          some (Except.error JsErr.loopEnd, [(id, att)])
    | NodeDef.flow start fprep fpost =>
      match orch start (fprep s) with
      | none => none
      | some (Except.error e, tr) => some (Except.error e, (id, []) :: tr)
      | some (Except.ok s2, tr) =>
        match fpost s2 with
        | (s3, act) => some (Except.ok (s3, act), (id, []) :: tr)

/-- `Flow._orchestrate(shared)` (pocketflow.js lines 154-168), with an
explicit fuel bound on the number of hops (the source can loop forever on
a cyclic graph; `none` reports that the bound was reached, never that the
source returned):
starting from a clone of the start node (`undefined` start throws
`"Flow has no start node"`), repeatedly run the current node, look up the
successor for the returned action, and stop when no successor exists.
Each iteration works on `clone()`d state taken from the template in
`g.defs`; the trace collects every visit in order. -/
def orchestrateF {S P E A : Type} (g : Graph S P E A) :
    Nat → Option Nat → S → Option (Except (JsErr E) S × List (Nat × List Nat))
  | _, none, _ => some (Except.error JsErr.noStart, [])
  | 0, some _, _ => none
  | fuel + 1, some id, s =>
    match g.defs id with
    | none => none
    | some gn =>
      match runNodeWith g (orchestrateF g fuel) id s with
      | none => none
      | some (Except.error e, tr) => some (Except.error e, tr)
      | some (Except.ok (s1, act), tr) =>
        match getNextNode gn.succ act with
        | none => some (Except.ok s1, tr)
        | some nid =>
          match orchestrateF g fuel (some nid) s1 with
          | none => none
          | some (r, tr2) => some (r, tr ++ tr2)

/-- Overwrite the template `currentRetry` field of a retry node
definition. -/
def NodeDef.withCR {S P E A : Type} : NodeDef S P E A → Nat → NodeDef S P E A
  | NodeDef.node b, c => NodeDef.node { b with currentRetry := c }
  | d, _ => d

/-- Overwrite every template `currentRetry` field in a graph (id `i`
receives the value `f i`): the state a fresh clone would start from. -/
def Graph.setCR {S P E A : Type} (g : Graph S P E A) (f : Nat → Nat) :
    Graph S P E A :=
  ⟨fun id => (g.defs id).map
    (fun gn => { gn with body := NodeDef.withCR gn.body (f id) })⟩

/-! Concrete fixtures used by the witness theorems. -/

/-- A node with `maxRetries = 3` whose `exec` raises on attempt indices 0
and 1 and succeeds with 7 on attempt index 2; default fallback. -/
def nodeW2 : RetryNode Nat Nat Nat where
  maxRetries := 3
  wait := 0
  exec := fun i _ => if i < 2 then Except.error 5 else Except.ok 7
  execFallback := fun _ e => Except.error e

/-- A node with `maxRetries = 2` whose `exec` always raises with the
attempt index as the error; default fallback. -/
def nodeW3 : RetryNode Nat Nat Nat where
  maxRetries := 2
  wait := 0
  exec := fun i _ => Except.error i
  execFallback := fun _ e => Except.error e

/-- A three-attempt node over `Nat` items: `exec` raises 4 on the first
two attempts for the item 2 and returns `item * 10` otherwise; default
fallback. -/
def nodeW5 : RetryNode Nat Nat Nat where
  maxRetries := 3
  wait := 0
  exec := fun i x =>
    if x = 2 ∧ i < 2 then Except.error 4 else Except.ok (x * 10)
  execFallback := fun _ e => Except.error e

/-- A single-attempt node over `Nat` items: `exec` raises 3 on the item 9
and returns `item * 10` otherwise; `execFallback` recovers the item 9 with
the substitute output 99 and re-raises for any other item. -/
def nodeW6 : RetryNode Nat Nat Nat where
  maxRetries := 1
  wait := 0
  exec := fun _ x => if x = 9 then Except.error 3 else Except.ok (x * 10)
  execFallback := fun x e => if x = 9 then Except.ok 99 else Except.error e

/-- A single-attempt node over `Nat` items whose `exec` raises 3 on the
item 9 and returns `item * 10` otherwise, with the default re-raising
fallback. -/
def nodeW8 : RetryNode Nat Nat Nat where
  maxRetries := 1
  wait := 0
  exec := fun _ x => if x = 9 then Except.error 3 else Except.ok (x * 10)
  execFallback := fun _ e => Except.error e

/-- A graph step whose `exec` fails at attempt index 0 and succeeds with
`input + 1` at attempt index 1; the template `currentRetry` field holds
the deliberately stale value 5 (the loop header must ignore it). -/
def stepW : StepBehavior Nat Nat Nat Nat where
  prep := fun s => (s, s)
  retry :=
    { maxRetries := 2
      wait := 0
      exec := fun i x => if i = 0 then Except.error 1 else Except.ok (x + 1)
      execFallback := fun _ e => Except.error e }
  currentRetry := 5
  post := fun _ _ a => (a, none)

/-- A two-node default chain `0 -default-> 1`, both nodes running
`stepW`. -/
def graphW1 : Graph Nat Nat Nat Nat where
  defs := fun id =>
    if id = 0 then some ⟨NodeDef.node stepW, [("default", 1)]⟩
    else if id = 1 then some ⟨NodeDef.node stepW, []⟩
    else none

/-- A single-attempt graph step computing `input + 1`, leaving the shared
context to `post` (which stores the output). -/
def stepS : StepBehavior Nat Nat Nat Nat where
  prep := fun s => (s, s)
  retry :=
    { maxRetries := 1
      wait := 0
      exec := fun _ x => Except.ok (x + 1)
      execFallback := fun _ e => Except.error e }
  currentRetry := 0
  post := fun _ _ a => (a, none)

/-- A three-node default chain `10 -default-> 11 -default-> 12`, each node
running `stepS`; node 12 has no successor. -/
def graphW4 : Graph Nat Nat Nat Nat where
  defs := fun id =>
    if id = 10 then some ⟨NodeDef.node stepS, [("default", 11)]⟩
    else if id = 11 then some ⟨NodeDef.node stepS, [("default", 12)]⟩
    else if id = 12 then some ⟨NodeDef.node stepS, []⟩
    else none

/-- Guard-first unfolding of `execLoop`, matching the source loop text:
test `currentRetry < maxRetries` first, then run the body. -/
theorem execLoop_eq {P E A : Type} (n : RetryNode P E A) (p : P) (cur : Nat) :
    execLoop n p cur =
      (if cur < n.maxRetries then
        match n.exec cur p with
        | Except.ok a => RunResult.ok a
        | Except.error e =>
          if cur = n.maxRetries - 1 then
            match n.execFallback p e with
            | Except.ok a => RunResult.ok a
            | Except.error e2 => RunResult.err e2
          else
            execLoop n p (cur + 1)
      else
        RunResult.loopEnd) := by
  rw [execLoop]
  rcases h : n.maxRetries - cur with _ | left
  · have hcur : ¬ cur < n.maxRetries := by omega
    simp [execLoopGo, hcur]
  · have hcur : cur < n.maxRetries := by omega
    have hrec : n.maxRetries - (cur + 1) = left := by omega
    simp only [execLoopGo, hcur, if_true, execLoop, hrec]

/-- Guard-first unfolding of `execLoopT`. -/
theorem execLoopT_eq {P E A : Type} (n : RetryNode P E A) (p : P) (cur : Nat) :
    execLoopT n p cur =
      (if cur < n.maxRetries then
        match n.exec cur p with
        | Except.ok a => (RunResult.ok a, [cur], 0)
        | Except.error e =>
          if cur = n.maxRetries - 1 then
            match n.execFallback p e with
            | Except.ok a => (RunResult.ok a, [cur], 1)
            | Except.error e2 => (RunResult.err e2, [cur], 1)
          else
            match execLoopT n p (cur + 1) with
            | (r, att, c) => (r, cur :: att, c)
      else
        (RunResult.loopEnd, [], 0)) := by
  rw [execLoopT]
  rcases h : n.maxRetries - cur with _ | left
  · have hcur : ¬ cur < n.maxRetries := by omega
    simp [execLoopTGo, hcur]
  · have hcur : cur < n.maxRetries := by omega
    have hrec : n.maxRetries - (cur + 1) = left := by omega
    simp only [execLoopTGo, hcur, if_true, execLoopT, hrec]

/-- The instrumented loop computes the same result as the plain one. -/
theorem execLoopT_fst {P E A : Type} (n : RetryNode P E A) (p : P) :
    ∀ cur, (execLoopT n p cur).1 = execLoop n p cur := by
  suffices h : ∀ left cur, (execLoopTGo n p left cur).1 = execLoopGo n p left cur by
    exact fun cur => h (n.maxRetries - cur) cur
  intro left
  induction left with
  | zero =>
    intro cur
    rfl
  | succ left ih =>
    intro cur
    simp only [execLoopTGo, execLoopGo]
    cases n.exec cur p with
    | ok a => rfl
    | error e =>
      by_cases hlast : cur = n.maxRetries - 1
      · simp only [hlast, if_true]
        cases n.execFallback p e <;> rfl
      · simp only [hlast, if_false]
        rw [← ih (cur + 1)]

/-- Skipping `d` failing attempts: if every attempt index in
`[cur, cur + d)` raises and `cur + d` is still at most the last attempt
index, the loop from `cur` records those attempts and continues exactly as
the loop from `cur + d`. -/
theorem execLoopT_skip {P E A : Type} (n : RetryNode P E A) (p : P) :
    ∀ d cur, (∀ i, cur ≤ i → i < cur + d → ∃ e, n.exec i p = Except.error e) →
      cur + d ≤ n.maxRetries - 1 →
      execLoopT n p cur =
        ((execLoopT n p (cur + d)).1,
         List.range' cur d ++ (execLoopT n p (cur + d)).2.1,
         (execLoopT n p (cur + d)).2.2) := by
  intro d
  induction d with
  | zero =>
    intro cur _ _
    simp [List.range']
  | succ d ih =>
    intro cur hfail hbound
    have hm2 : 2 ≤ n.maxRetries := by omega
    have hcur : cur < n.maxRetries := by omega
    have hlast : ¬ cur = n.maxRetries - 1 := by omega
    obtain ⟨e, he⟩ := hfail cur le_rfl (by omega)
    rw [execLoopT_eq]
    simp only [hcur, if_true, he, hlast, if_false]
    have hrec := ih (cur + 1)
      (fun i h1 h2 => hfail i (by omega) (by omega)) (by omega)
    rw [hrec]
    have harr : cur + 1 + d = cur + (d + 1) := by omega
    rw [harr]
    have hrange : List.range' cur (d + 1) = cur :: List.range' (cur + 1) d :=
      List.range'_succ cur d 1
    simp [hrange]

/-- A successful attempt at index `cur` ends the loop with that attempt's
output, recording the single attempt and no fallback invocation. -/
theorem execLoopT_last_ok {P E A : Type} (n : RetryNode P E A) (p : P)
    (cur : Nat) (a : A) (hcur : cur < n.maxRetries)
    (hok : n.exec cur p = Except.ok a) :
    execLoopT n p cur = (RunResult.ok a, [cur], 0) := by
  rw [execLoopT_eq]
  simp [hcur, hok]

/-- A failing attempt at the last index `maxRetries - 1` invokes the
fallback once, and the loop's result is the fallback's result. -/
theorem execLoopT_last_fallback {P E A : Type} (n : RetryNode P E A) (p : P)
    (e : E) (hm : 1 ≤ n.maxRetries)
    (he : n.exec (n.maxRetries - 1) p = Except.error e) :
    execLoopT n p (n.maxRetries - 1) =
      ((match n.execFallback p e with
        | Except.ok v => RunResult.ok v
        | Except.error e2 => RunResult.err e2),
       [n.maxRetries - 1], 1) := by
  rw [execLoopT_eq]
  have hcur : n.maxRetries - 1 < n.maxRetries := by omega
  simp only [hcur, if_true, he, if_pos rfl]
  cases n.execFallback p e <;> rfl

/-- With at least one attempt allowed, the loop never falls through to the
trailing `throw new Error("Unexpected end of retry loop")`. -/
theorem execLoop_ne_loopEnd {P E A : Type} (n : RetryNode P E A) (p : P) :
    ∀ cur, cur < n.maxRetries → execLoop n p cur ≠ RunResult.loopEnd := by
  suffices h : ∀ d cur, n.maxRetries - cur ≤ d → cur < n.maxRetries →
      execLoop n p cur ≠ RunResult.loopEnd by
    exact fun cur => h (n.maxRetries - cur) cur le_rfl
  intro d
  induction d with
  | zero =>
    intro cur hd hcur
    omega
  | succ d ih =>
    intro cur hd hcur
    rw [execLoop_eq]
    simp only [hcur, if_true]
    cases n.exec cur p with
    | ok a => simp
    | error e =>
      by_cases hlast : cur = n.maxRetries - 1
      · simp only [hlast, if_true]
        cases n.execFallback p e <;> simp
      · simp only [hlast, if_false]
        exact ih (cur + 1) (by omega) (by omega)

/-- C2.  Retry success semantics: for every Node with `maxRetries = m ≥ 1`
and every `k` with `1 ≤ k ≤ m`, if `exec` raises on attempts `1 .. k-1`
(attempt indices `0 .. k-2`) and succeeds on attempt `k` (index `k-1`),
then the retry-wrapped `_exec` returns attempt `k`'s output and
`execFallback` is never invoked. -/
theorem retry_success_returns_attempt_k (P E A : Type)
    (n : RetryNode P E A) (p : P) (k : Nat) (a : A)
    (hk1 : 1 ≤ k) (hkm : k ≤ n.maxRetries)
    (hfail : ∀ i, i < k - 1 → ∃ e, n.exec i p = Except.error e)
    (hsucc : n.exec (k - 1) p = Except.ok a) :
    Node_exec n p = RunResult.ok a ∧ (execLoopT n p 0).2.2 = 0 := by
  have hskip := execLoopT_skip n p (k - 1) 0
    (fun i _ h2 => hfail i (by omega)) (by omega)
  have hlastok := execLoopT_last_ok n p (k - 1) a (by omega) hsucc
  simp only [Nat.zero_add] at hskip
  have hT : execLoopT n p 0 = (RunResult.ok a, List.range' 0 (k - 1) ++ [k - 1], 0) := by
    rw [hskip, hlastok]
  constructor
  · have := execLoopT_fst n p 0
    rw [hT] at this
    exact this.symm
  · rw [hT]

/-- Witness for C2 at `nodeW2` (`maxRetries = 3`, failures on attempt
indices 0 and 1, success with 7 at index 2). -/
theorem retry_success_returns_attempt_k_witness :
    Node_exec nodeW2 0 = RunResult.ok 7 ∧ (execLoopT nodeW2 0 0).2.2 = 0 :=
  retry_success_returns_attempt_k Nat Nat Nat nodeW2 0 3 7
    (by decide) (by decide)
    (fun i hi => ⟨5, by
      have h2 : i < 2 := by omega
      simp [nodeW2, h2]⟩)
    rfl

/-- Exhaustion of all attempts: the fallback is invoked once and decides
the run's result.  Shared between the claims about exhaustion (C3) and
about batch fault isolation (C6). -/
theorem Node_exec_exhaust {P E A : Type}
    (n : RetryNode P E A) (p : P) (errAt : Nat → E)
    (hm : 1 ≤ n.maxRetries)
    (hfail : ∀ i, i < n.maxRetries → n.exec i p = Except.error (errAt i)) :
    (execLoopT n p 0).2.2 = 1
    ∧ Node_exec n p =
        (match n.execFallback p (errAt (n.maxRetries - 1)) with
         | Except.ok v => RunResult.ok v
         | Except.error e => RunResult.err e) := by
  have hskip := execLoopT_skip n p (n.maxRetries - 1) 0
    (fun i _ h2 => ⟨errAt i, hfail i (by omega)⟩) (by omega)
  have hlast := execLoopT_last_fallback n p (errAt (n.maxRetries - 1)) hm
    (hfail (n.maxRetries - 1) (by omega))
  simp only [Nat.zero_add] at hskip
  have hT : execLoopT n p 0 =
      ((match n.execFallback p (errAt (n.maxRetries - 1)) with
        | Except.ok v => RunResult.ok v
        | Except.error e2 => RunResult.err e2),
       List.range' 0 (n.maxRetries - 1) ++ [n.maxRetries - 1], 1) := by
    rw [hskip, hlast]
  refine ⟨by rw [hT], ?_⟩
  have hfst := execLoopT_fst n p 0
  rw [hT] at hfst
  exact hfst.symm

/-- C3.  Exhaustion semantics: if `exec` raises on every one of the
`maxRetries ≥ 1` attempts, then `execFallback` is invoked exactly once,
at the prepare result and the last attempt's error; an overriding fallback
that returns a value makes `_exec` return that value, and the default
fallback re-raises the error so the run raises it. -/
theorem retry_exhaustion_invokes_fallback_once (P E A : Type)
    (n : RetryNode P E A) (p : P) (errAt : Nat → E)
    (hm : 1 ≤ n.maxRetries)
    (hfail : ∀ i, i < n.maxRetries → n.exec i p = Except.error (errAt i)) :
    (execLoopT n p 0).2.2 = 1
    ∧ Node_exec n p =
        (match n.execFallback p (errAt (n.maxRetries - 1)) with
         | Except.ok v => RunResult.ok v
         | Except.error e => RunResult.err e)
    ∧ (n.execFallback = defaultExecFallback P E A →
        Node_exec n p = RunResult.err (errAt (n.maxRetries - 1))) := by
  obtain ⟨h1, h2⟩ := Node_exec_exhaust n p errAt hm hfail
  refine ⟨h1, h2, ?_⟩
  intro hdef
  rw [h2, hdef]
  rfl

/-- Witness for C3 at `nodeW3` (`maxRetries = 2`, `exec` raises the attempt
index, default fallback): the fallback runs once and the run raises the
last attempt's error, 1. -/
theorem retry_exhaustion_invokes_fallback_once_witness :
    (execLoopT nodeW3 0 0).2.2 = 1 ∧ Node_exec nodeW3 0 = RunResult.err 1 :=
  have h := retry_exhaustion_invokes_fallback_once Nat Nat Nat nodeW3 0
    (fun i => i) (by decide) (fun i _ => rfl)
  ⟨h.1, h.2.2 rfl⟩

/-- C9.  Implicit safety: with `maxRetries ≥ 1` the retry loop always ends
by returning `exec`'s or `execFallback`'s value or by propagating
`execFallback`'s error; the trailing
`throw new Error("Unexpected end of retry loop")` is unreachable. -/
theorem retry_loop_trailing_throw_unreachable (P E A : Type)
    (n : RetryNode P E A) (p : P) (hm : 1 ≤ n.maxRetries) :
    Node_exec n p ≠ RunResult.loopEnd :=
  execLoop_ne_loopEnd n p 0 (by omega)

/-- Witness for C9 at `nodeW3`. -/
theorem retry_loop_trailing_throw_unreachable_witness :
    Node_exec nodeW3 0 ≠ RunResult.loopEnd :=
  retry_loop_trailing_throw_unreachable Nat Nat Nat nodeW3 0 (by decide)

/-- Every item succeeding makes the sequential batch loop return the
outputs in input order. -/
theorem batchGo_all_ok {P E A : Type} (n : RetryNode P E A) (g : P → A) :
    ∀ items : List P, (∀ x ∈ items, Node_exec n x = RunResult.ok (g x)) →
      batchGo n items = RunResult.ok (items.map g) := by
  intro items
  induction items with
  | nil =>
    intro _
    rfl
  | cons item rest ih =>
    intro h
    have hitem := h item (by simp)
    have hrest := ih (fun x hx => h x (by simp [hx]))
    rw [batchGo, hitem, hrest]
    rfl

/-- Splitting the sequential batch loop after a prefix of succeeding
items. -/
theorem batchGo_append {P E A : Type} (n : RetryNode P E A) (g : P → A) :
    ∀ (pre rest : List P), (∀ x ∈ pre, Node_exec n x = RunResult.ok (g x)) →
      batchGo n (pre ++ rest) =
        (match batchGo n rest with
         | RunResult.ok results => RunResult.ok (pre.map g ++ results)
         | RunResult.err e => RunResult.err e
         | RunResult.loopEnd => RunResult.loopEnd) := by
  intro pre
  induction pre with
  | nil =>
    intro rest _
    cases h : batchGo n rest <;> simp [h]
  | cons item pre ih =>
    intro rest h
    have hitem := h item (by simp)
    have hpre := ih rest (fun x hx => h x (by simp [hx]))
    rw [List.cons_append, batchGo, hitem, hpre]
    cases batchGo n rest <;> rfl

/-- C5.  Sequential batch order preservation: for every ordered collection
of items prepared for a `BatchNode`, when each item's retry-wrapped cycle
`f` succeeds (possibly after retries), the output is the ordered
collection of the `f`-outputs in exactly the input order. -/
theorem batch_preserves_order (P E A : Type) (n : RetryNode P E A)
    (items : List P) (g : P → A)
    (h : ∀ x ∈ items, Node_exec n x = RunResult.ok (g x)) :
    BatchNode_exec n (PrepVal.arr items) = RunResult.ok (items.map g) :=
  batchGo_all_ok n g items h

/-- Witness for C5 at `nodeW5` (item 2 needs two failing attempts before
succeeding) over the items `[1, 2, 3]`. -/
theorem batch_preserves_order_witness :
    BatchNode_exec nodeW5 (PrepVal.arr [1, 2, 3]) =
      RunResult.ok [10, 20, 30] :=
  batch_preserves_order Nat Nat Nat nodeW5 [1, 2, 3] (fun x => x * 10)
    (by decide)

/-- C6.  Sequential batch per-item fault isolation: an item whose attempts
exhaust but whose fallback returns a value does not affect later items —
they still run, with the fallback's value at the failed item's position —
whereas a fallback that itself raises fails the whole batch run and later
items are not processed (the result does not depend on them). -/
theorem batch_item_fault_isolation (P E A : Type) (n : RetryNode P E A)
    (pre post : List P) (bad : P) (g : P → A) (errAt : Nat → E)
    (hm : 1 ≤ n.maxRetries)
    (hbadfail : ∀ i, i < n.maxRetries → n.exec i bad = Except.error (errAt i))
    (hpre : ∀ x ∈ pre, Node_exec n x = RunResult.ok (g x))
    (hpost : ∀ x ∈ post, Node_exec n x = RunResult.ok (g x)) :
    (∀ v, n.execFallback bad (errAt (n.maxRetries - 1)) = Except.ok v →
      BatchNode_exec n (PrepVal.arr (pre ++ bad :: post)) =
        RunResult.ok (pre.map g ++ v :: post.map g))
    ∧ (∀ e, n.execFallback bad (errAt (n.maxRetries - 1)) = Except.error e →
      ∀ rest : List P,
        BatchNode_exec n (PrepVal.arr (pre ++ bad :: rest)) =
          RunResult.err e) := by
  have hbad := (Node_exec_exhaust n bad errAt hm hbadfail).2
  constructor
  · intro v hv
    have hbadok : Node_exec n bad = RunResult.ok v := by rw [hbad, hv]
    show batchGo n (pre ++ bad :: post) = _
    rw [batchGo_append n g pre (bad :: post) hpre, batchGo, hbadok,
      batchGo_all_ok n g post hpost]
  · intro e he rest
    have hbaderr : Node_exec n bad = RunResult.err e := by rw [hbad, he]
    show batchGo n (pre ++ bad :: rest) = _
    rw [batchGo_append n g pre (bad :: rest) hpre, batchGo, hbaderr]

/-- Witness for C6 at `nodeW6` over the items `[1, 9, 2]`: item 9
exhausts, its fallback substitutes 99, and the later item 2 still runs. -/
theorem batch_item_fault_isolation_witness :
    BatchNode_exec nodeW6 (PrepVal.arr [1, 9, 2]) =
      RunResult.ok [10, 99, 20] :=
  (batch_item_fault_isolation Nat Nat Nat nodeW6 [1] [2] 9 (fun x => x * 10)
      (fun _ => 3) (by decide)
      (fun i hi => by
        have hm1 : nodeW6.maxRetries = 1 := rfl
        rw [hm1] at hi
        have h0 : i = 0 := by omega
        subst h0
        rfl)
      (by decide) (by decide)).1 99 rfl

/-- C10.  Implicit edge-case tolerance: a prepare result that is
`null`/`undefined` or not an array makes both `BatchNode._exec` and
`ParallelBatchNode._exec` return the empty collection, for every node —
in particular without invoking `exec`, the retry machinery, or the
fallback — rather than raising. -/
theorem batch_non_array_prep_yields_empty (P E A : Type)
    (n : RetryNode P E A) :
    BatchNode_exec n (PrepVal.nullish (P := P)) = RunResult.ok ([] : List A)
    ∧ BatchNode_exec n PrepVal.nonArray = RunResult.ok ([] : List A)
    ∧ ParallelBatchNode_exec n PrepVal.nullish = RunResult.ok ([] : List A)
    ∧ ParallelBatchNode_exec n PrepVal.nonArray = RunResult.ok ([] : List A) :=
  ⟨rfl, rfl, rfl, rfl⟩

/-- Unfolding of `promiseAll` at a cons cell. -/
theorem promiseAll_cons {E A : Type} (r : RunResult E A)
    (rs : List (RunResult E A)) :
    promiseAll (r :: rs) =
      (match r with
       | RunResult.ok a =>
         match promiseAll rs with
         | RunResult.ok results => RunResult.ok (a :: results)
         | RunResult.err e => RunResult.err e
         | RunResult.loopEnd => RunResult.loopEnd
       | RunResult.err e => RunResult.err e
       | RunResult.loopEnd => RunResult.loopEnd) := by
  cases r <;> rfl

/-- `Promise.all` over cycles that all fulfil returns the outputs in input
order. -/
theorem promiseAll_map_ok {P E A : Type} (n : RetryNode P E A) (g : P → A) :
    ∀ items : List P, (∀ x ∈ items, Node_exec n x = RunResult.ok (g x)) →
      promiseAll (items.map (Node_exec n)) = RunResult.ok (items.map g) := by
  intro items
  induction items with
  | nil =>
    intro _
    rfl
  | cons item rest ih =>
    intro h
    have hitem := h item (by simp)
    have hrest := ih (fun x hx => h x (by simp [hx]))
    rw [List.map_cons, promiseAll_cons, hitem, hrest]
    rfl

/-- `Promise.all` fulfils exactly when every constituent promise
fulfils. -/
theorem promiseAll_ok_iff {E A : Type} :
    ∀ rs : List (RunResult E A),
      (∃ results, promiseAll rs = RunResult.ok results) ↔
        ∀ r ∈ rs, ∃ a, r = RunResult.ok a := by
  intro rs
  induction rs with
  | nil =>
    simp [promiseAll]
  | cons r rest ih =>
    constructor
    · rintro ⟨results, hres⟩ r' hr'
      rw [promiseAll_cons] at hres
      cases r with
      | ok a =>
        cases hrest : promiseAll rest with
        | ok results2 =>
          rcases List.mem_cons.mp hr' with h | h
          · exact ⟨a, h⟩
          · exact ih.mp ⟨results2, hrest⟩ r' h
        | err e =>
          rw [hrest] at hres
          simp at hres
        | loopEnd =>
          rw [hrest] at hres
          simp at hres
      | err e => simp at hres
      | loopEnd => simp at hres
    · intro hall
      obtain ⟨a, ha⟩ := hall r (by simp)
      obtain ⟨results, hres⟩ := ih.mpr (fun x hx => hall x (by simp [hx]))
      subst ha
      exact ⟨a :: results, by rw [promiseAll_cons, hres]⟩

/-- Settling one item does not change the number of output slots. -/
theorem settleStep_length {A : Type} (res : List A) (acc : List (Option A))
    (i : Nat) : (settleStep res acc i).length = acc.length := by
  unfold settleStep
  cases res[i]? <;> simp

/-- Settling any sequence of items does not change the number of output
slots. -/
theorem foldl_settle_length {A : Type} (res : List A) :
    ∀ (order : List Nat) (acc : List (Option A)),
      (order.foldl (settleStep res) acc).length = acc.length := by
  intro order
  induction order with
  | nil =>
    intro acc
    rfl
  | cons i rest ih =>
    intro acc
    rw [List.foldl_cons, ih, settleStep_length]

/-- A slot whose index never completes keeps its value. -/
theorem foldl_settle_not_mem {A : Type} (res : List A) :
    ∀ (order : List Nat) (acc : List (Option A)) (j : Nat), j ∉ order →
      (order.foldl (settleStep res) acc)[j]? = acc[j]? := by
  intro order
  induction order with
  | nil =>
    intro acc j _
    rfl
  | cons i rest ih =>
    intro acc j hj
    have hji : j ≠ i := fun h => hj (by simp [h])
    have hjr : j ∉ rest := fun h => hj (by simp [h])
    rw [List.foldl_cons, ih (settleStep res acc i) j hjr]
    unfold settleStep
    cases res[i]? with
    | none => rfl
    | some a => exact List.getElem?_set_ne (fun h => hji h.symm)

/-- A slot whose index completes at some point of the order ends up
holding that item's result. -/
theorem foldl_settle_mem {A : Type} (res : List A) :
    ∀ (order : List Nat) (acc : List (Option A)) (j : Nat),
      acc.length = res.length → j ∈ order → j < res.length →
      (order.foldl (settleStep res) acc)[j]? = Option.map some (res[j]?) := by
  intro order
  induction order with
  | nil =>
    intro acc j _ hmem _
    exact absurd hmem (List.not_mem_nil j)
  | cons i rest ih =>
    intro acc j hlen hmem hlt
    rw [List.foldl_cons]
    by_cases hjr : j ∈ rest
    · exact ih (settleStep res acc i) j (by rw [settleStep_length]; exact hlen) hjr hlt
    · have hji : j = i := by
        rcases List.mem_cons.mp hmem with h | h
        · exact h
        · exact absurd h hjr
      subst hji
      rw [foldl_settle_not_mem res rest (settleStep res acc j) j hjr]
      unfold settleStep
      rcases hr : res[j]? with _ | a
      · rw [List.getElem?_eq_getElem hlt] at hr
        exact absurd hr (by simp)
      · exact List.getElem?_set_eq_of_lt (some a) (by rw [hlen]; exact hlt)

/-- Whenever every index completes exactly once, in any order, the
reassembled output is the results in input order. -/
theorem joinInOrder_perm {A : Type} (res : List A) (order : List Nat)
    (hperm : order.Perm (List.range res.length)) :
    joinInOrder res order = res.map some := by
  apply List.ext_getElem?
  intro j
  by_cases hj : j < res.length
  · have hmem : j ∈ order := hperm.mem_iff.mpr (List.mem_range.mpr hj)
    unfold joinInOrder
    rw [foldl_settle_mem res order (List.replicate res.length none) j
      (by simp) hmem hj]
    rw [List.getElem?_map]
  · push_neg at hj
    have hlen1 : (joinInOrder res order).length = res.length := by
      unfold joinInOrder
      rw [foldl_settle_length]
      simp
    rw [List.getElem?_eq_none (by rw [hlen1]; exact hj),
      List.getElem?_eq_none (by rw [List.length_map]; exact hj)]

/-- C7.  Parallel batch order preservation: when every item's retry cycle
succeeds (or is recovered by its fallback), `ParallelBatchNode._exec`
returns the outputs in input order; and in the completion-order model of
the `Promise.all` join, the reassembled output is the same for every
completion order of the items. -/
theorem parallel_batch_preserves_order (P E A : Type) (n : RetryNode P E A)
    (items : List P) (g : P → A)
    (h : ∀ x ∈ items, Node_exec n x = RunResult.ok (g x)) :
    ParallelBatchNode_exec n (PrepVal.arr items) = RunResult.ok (items.map g)
    ∧ ∀ order : List Nat, order.Perm (List.range (items.map g).length) →
        joinInOrder (items.map g) order = (items.map g).map some := by
  constructor
  · exact promiseAll_map_ok n g items h
  · intro order hperm
    exact joinInOrder_perm (items.map g) order hperm

/-- Witness for C7 at `nodeW6` over the items `[1, 2, 3]`, with the
completion order 2, 0, 1. -/
theorem parallel_batch_preserves_order_witness :
    ParallelBatchNode_exec nodeW6 (PrepVal.arr [1, 2, 3]) =
      RunResult.ok [10, 20, 30]
    ∧ joinInOrder [10, 20, 30] [2, 0, 1] = [some 10, some 20, some 30] :=
  have h := parallel_batch_preserves_order Nat Nat Nat nodeW6 [1, 2, 3]
    (fun x => x * 10) (by decide)
  ⟨h.1, h.2 [2, 0, 1] (by decide)⟩

/-- C8.  Parallel batch all-or-nothing join: `ParallelBatchNode._exec`
returns an output collection precisely when every item's retry cycle
succeeds or is substituted by its fallback; if any single item's cycle
raises, the whole batch run fails and no output collection (hence none of
the other items' results) is returned. -/
theorem parallel_batch_all_or_nothing (P E A : Type) (n : RetryNode P E A)
    (items : List P) :
    (∃ results, ParallelBatchNode_exec n (PrepVal.arr items) =
        RunResult.ok results)
    ↔ ∀ x ∈ items, ∃ a, Node_exec n x = RunResult.ok a := by
  constructor
  · intro hex x hx
    exact (promiseAll_ok_iff (items.map (Node_exec n))).mp hex
      (Node_exec n x) (List.mem_map_of_mem (Node_exec n) hx)
  · intro hall
    apply (promiseAll_ok_iff (items.map (Node_exec n))).mpr
    intro r hr
    obtain ⟨x, hx, hfx⟩ := List.mem_map.mp hr
    obtain ⟨a, ha⟩ := hall x hx
    exact ⟨a, by rw [← hfx, ha]⟩

/-- The attempt indices recorded by the retry loop from `cur` form the
contiguous range starting at `cur`. -/
theorem execLoopTGo_attempts {P E A : Type} (n : RetryNode P E A) (p : P) :
    ∀ left cur, (execLoopTGo n p left cur).2.1 =
      List.range' cur (execLoopTGo n p left cur).2.1.length := by
  intro left
  induction left with
  | zero =>
    intro cur
    rfl
  | succ left ih =>
    intro cur
    simp only [execLoopTGo]
    cases n.exec cur p with
    | ok a => rfl
    | error e =>
      by_cases hlast : cur = n.maxRetries - 1
      · simp only [hlast, if_true]
        cases n.execFallback p e <;> rfl
      · simp only [hlast, if_false]
        have h := ih (cur + 1)
        rcases hgo : execLoopTGo n p left (cur + 1) with ⟨r, att, c⟩
        rw [hgo] at h
        simp only [hgo]
        simp only at h ⊢
        rw [List.length_cons, List.range'_succ, ← h]

/-- An `_exec` entered through the loop initialisation records the
attempt indices `0, 1, …`: the retry cycle begins at attempt 1 (index 0)
and counts up with no gap. -/
theorem execLoopT_attempts0 {P E A : Type} (n : RetryNode P E A) (p : P) :
    (execLoopT n p 0).2.1 = List.range (execLoopT n p 0).2.1.length := by
  rw [List.range_eq_range']
  exact execLoopTGo_attempts n p (n.maxRetries - 0) 0

/-- Every visit recorded by a single node run has a fresh attempt range,
provided the orchestration callback guarantees the same. -/
theorem runNodeWith_trace {S P E A : Type} (g : Graph S P E A)
    (orch : Option Nat → S → Option (Except (JsErr E) S × List (Nat × List Nat)))
    (horch : ∀ st s r tr, orch st s = some (r, tr) →
      ∀ v ∈ tr, v.2 = List.range v.2.length) :
    ∀ id s r tr, runNodeWith g orch id s = some (r, tr) →
      ∀ v ∈ tr, v.2 = List.range v.2.length := by
  intro id s r tr h v hv
  rcases hg : g.defs id with _ | ⟨body, succ⟩
  · rw [runNodeWith, hg] at h
    simp at h
  · rcases body with b | ⟨start, fprep, fpost⟩
    · rcases hp : b.prep s with ⟨s1, p⟩
      rcases hT : execLoopT b.retry p 0 with ⟨rr, att, c⟩
      have hatt : att = List.range att.length := by
        have hrange := execLoopT_attempts0 b.retry p
        rw [hT] at hrange
        exact hrange
      rw [runNodeWith] at h
      simp only [hg, hp, hT] at h
      cases rr with
      | ok a =>
        rcases hpost : b.post s1 p a with ⟨s2, act⟩
        simp only [hpost, Option.some.injEq, Prod.mk.injEq] at h
        obtain ⟨h1, h2⟩ := h
        subst h2
        rcases List.mem_singleton.mp hv with rfl
        exact hatt
      | err e =>
        simp only [Option.some.injEq, Prod.mk.injEq] at h
        obtain ⟨h1, h2⟩ := h
        subst h2
        rcases List.mem_singleton.mp hv with rfl
        exact hatt
      | loopEnd =>
        simp only [Option.some.injEq, Prod.mk.injEq] at h
        obtain ⟨h1, h2⟩ := h
        subst h2
        rcases List.mem_singleton.mp hv with rfl
        exact hatt
    · rw [runNodeWith] at h
      simp only [hg] at h
      rcases ho : orch start (fprep s) with _ | ⟨r2, tr2⟩
      · simp only [ho] at h
        exact Option.noConfusion h
      · simp only [ho] at h
        cases r2 with
        | error e =>
          simp only [Option.some.injEq, Prod.mk.injEq] at h
          obtain ⟨h1, h2⟩ := h
          subst h2
          rcases List.mem_cons.mp hv with rfl | hv2
          · rfl
          · exact horch start (fprep s) (Except.error e) tr2 ho v hv2
        | ok s2 =>
          rcases hpost : fpost s2 with ⟨s3, act⟩
          simp only [hpost, Option.some.injEq, Prod.mk.injEq] at h
          obtain ⟨h1, h2⟩ := h
          subst h2
          rcases List.mem_cons.mp hv with rfl | hv2
          · rfl
          · exact horch start (fprep s) (Except.ok s2) tr2 ho v hv2

/-- Every visit in an orchestration trace has a fresh attempt range. -/
theorem orchestrateF_trace {S P E A : Type} (g : Graph S P E A) :
    ∀ fuel st s r tr, orchestrateF g fuel st s = some (r, tr) →
      ∀ v ∈ tr, v.2 = List.range v.2.length := by
  intro fuel
  induction fuel with
  | zero =>
    intro st s r tr h v hv
    cases st with
    | none =>
      simp only [orchestrateF, Option.some.injEq, Prod.mk.injEq] at h
      obtain ⟨h1, h2⟩ := h
      subst h2
      exact absurd hv (List.not_mem_nil v)
    | some id =>
      simp only [orchestrateF] at h
      exact Option.noConfusion h
  | succ fuel ih =>
    intro st s r tr h v hv
    cases st with
    | none =>
      simp only [orchestrateF, Option.some.injEq, Prod.mk.injEq] at h
      obtain ⟨h1, h2⟩ := h
      subst h2
      exact absurd hv (List.not_mem_nil v)
    | some id =>
      rw [orchestrateF] at h
      rcases hg : g.defs id with _ | ⟨body, succ⟩
      · simp only [hg] at h
        exact Option.noConfusion h
      · simp only [hg] at h
        rcases hrn : runNodeWith g (orchestrateF g fuel) id s with _ | ⟨rr, tr1⟩
        · simp only [hrn] at h
          exact Option.noConfusion h
        · simp only [hrn] at h
          have htr1 := runNodeWith_trace g (orchestrateF g fuel)
            (fun st2 s2 r2 tr2 h2 => ih st2 s2 r2 tr2 h2) id s rr tr1 hrn
          cases rr with
          | error e =>
            simp only [Option.some.injEq, Prod.mk.injEq] at h
            obtain ⟨h1, h2⟩ := h
            subst h2
            exact htr1 v hv
          | ok pair =>
            rcases pair with ⟨s1, act⟩
            rcases hnx : getNextNode succ act with _ | nid
            · simp only [hnx, Option.some.injEq, Prod.mk.injEq] at h
              obtain ⟨h1, h2⟩ := h
              subst h2
              exact htr1 v hv
            · simp only [hnx] at h
              rcases ho2 : orchestrateF g fuel (some nid) s1 with _ | ⟨r2, tr2⟩
              · simp only [ho2] at h
                exact Option.noConfusion h
              · simp only [ho2, Option.some.injEq, Prod.mk.injEq] at h
                obtain ⟨h1, h2⟩ := h
                subst h2
                rcases List.mem_append.mp hv with hv1 | hv2
                · exact htr1 v hv1
                · exact ih (some nid) s1 r2 tr2 ho2 v hv2

/-- Overwriting the template `currentRetry` fields does not change what a
single node run computes (the loop header re-initialises the counter). -/
theorem runNodeWith_setCR {S P E A : Type} (g : Graph S P E A) (f : Nat → Nat)
    (orch orch2 : Option Nat → S →
      Option (Except (JsErr E) S × List (Nat × List Nat)))
    (horch : ∀ st s, orch2 st s = orch st s) :
    ∀ id s, runNodeWith (Graph.setCR g f) orch2 id s =
      runNodeWith g orch id s := by
  intro id s
  rcases hg : g.defs id with _ | ⟨body, succ⟩
  · have hg2 : (Graph.setCR g f).defs id = none := by
      show (g.defs id).map _ = none
      rw [hg]
      rfl
    rw [runNodeWith, runNodeWith, hg, hg2]
  · rcases body with b | ⟨start, fprep, fpost⟩
    · have hg2 : (Graph.setCR g f).defs id =
          some ⟨NodeDef.node { b with currentRetry := f id }, succ⟩ := by
        show (g.defs id).map _ = _
        rw [hg]
        rfl
      rw [runNodeWith, runNodeWith]
      simp only [hg, hg2]
    · have hg2 : (Graph.setCR g f).defs id =
          some ⟨NodeDef.flow start fprep fpost, succ⟩ := by
        show (g.defs id).map _ = _
        rw [hg]
        rfl
      rw [runNodeWith, runNodeWith]
      simp only [hg, hg2, horch]

/-- Overwriting the template `currentRetry` fields does not change the
orchestration at all. -/
theorem orchestrateF_setCR {S P E A : Type} (g : Graph S P E A)
    (f : Nat → Nat) :
    ∀ fuel st s, orchestrateF (Graph.setCR g f) fuel st s =
      orchestrateF g fuel st s := by
  intro fuel
  induction fuel with
  | zero =>
    intro st s
    cases st <;> rfl
  | succ fuel ih =>
    intro st s
    cases st with
    | none => rfl
    | some id =>
      simp only [orchestrateF]
      rw [runNodeWith_setCR g f (orchestrateF g fuel)
        (orchestrateF (Graph.setCR g f) fuel) ih id s]
      rcases hg : g.defs id with _ | ⟨body, succ⟩
      · have hg2 : (Graph.setCR g f).defs id = none := by
          show (g.defs id).map _ = none
          rw [hg]
          rfl
        rw [hg2]
      · have hg2 : (Graph.setCR g f).defs id =
            some ⟨NodeDef.withCR body (f id), succ⟩ := by
          show (g.defs id).map _ = _
          rw [hg]
          rfl
        rw [hg2]
        simp only [ih]

/-- C1.  Per-run isolation of retry state: in any orchestration (covering
successive traversals, nested flows through `NodeDef.flow`, and repeated
visits of one definition within a traversal), every recorded visit's
attempt-index list is `0, 1, …` — each visit begins its retry cycle at
attempt 1 and observes no leftover attempt counter — and the result,
including every visit trace, is unchanged when the template `currentRetry`
fields are overwritten arbitrarily, because each visit runs on an
independent clone whose counter the loop header re-initialises. -/
theorem per_run_retry_state_isolation (S P E A : Type) (g : Graph S P E A)
    (fuel : Nat) (start : Option Nat) (s : S) (r : Except (JsErr E) S)
    (tr : List (Nat × List Nat))
    (h : orchestrateF g fuel start s = some (r, tr)) :
    (∀ v ∈ tr, v.2 = List.range v.2.length)
    ∧ ∀ f : Nat → Nat,
        orchestrateF (Graph.setCR g f) fuel start s = some (r, tr) := by
  refine ⟨orchestrateF_trace g fuel start s r tr h, ?_⟩
  intro f
  rw [orchestrateF_setCR g f fuel start s]
  exact h

/-- Witness for C1 at `graphW1`, a chain of two `stepW` steps, run twice
through the counter-overwriting map: the run with all template counters
forced to 7 still produces the same result and the same fresh attempt
traces `[0, 1]`. -/
theorem per_run_retry_state_isolation_witness :
    orchestrateF (Graph.setCR graphW1 (fun _ => 7)) 3 (some 0) 10 =
      some (Except.ok 12, [(0, [0, 1]), (1, [0, 1])]) :=
  (per_run_retry_state_isolation Nat Nat Nat Nat graphW1 3 (some 0) 10
    (Except.ok 12) [(0, [0, 1]), (1, [0, 1])] rfl).2 (fun _ => 7)

/-- A step with an empty successor map has no next node: the traversal
ends. -/
theorem getNextNode_nil (action : Option String) :
    getNextNode [] action = none := rfl

/-- An absent action resolves to the reserved `"default"` label. -/
theorem getNextNode_default (nid : Nat) (rest : List (String × Nat)) :
    getNextNode (("default", nid) :: rest) none = some nid := rfl

/-- C4.  Orchestrator traversal order and termination: for a three-node
chain `A -default-> B -default-> C` in which every `post` returns no
explicit action and every retry cycle succeeds, a traversal from `A`
executes the `prep`/`_exec`/`post` cycles of `A`, `B`, then `C`, in that
order, threading the shared context through them, resolving the absent
action to the default label at each hop, and ends after `C` because `C`
has no registered successor (any fuel of at least 3 hops suffices, and the
result reports normal termination). -/
theorem chain_traversal_order_and_termination (S P E A : Type)
    (g : Graph S P E A) (ida idb idc : Nat)
    (bA bB bC : StepBehavior S P E A)
    (s0 s1 s1b s2 s2b s3 s3b : S) (pA pB pC : P) (vA vB vC : A)
    (attA attB attC : List Nat) (cA cB cC : Nat)
    (fuel : Nat) (hfuel : 3 ≤ fuel)
    (hga : g.defs ida = some ⟨NodeDef.node bA, [("default", idb)]⟩)
    (hgb : g.defs idb = some ⟨NodeDef.node bB, [("default", idc)]⟩)
    (hgc : g.defs idc = some ⟨NodeDef.node bC, []⟩)
    (hprepA : bA.prep s0 = (s1, pA))
    (hexecA : execLoopT bA.retry pA 0 = (RunResult.ok vA, attA, cA))
    (hpostA : bA.post s1 pA vA = (s1b, none))
    (hprepB : bB.prep s1b = (s2, pB))
    (hexecB : execLoopT bB.retry pB 0 = (RunResult.ok vB, attB, cB))
    (hpostB : bB.post s2 pB vB = (s2b, none))
    (hprepC : bC.prep s2b = (s3, pC))
    (hexecC : execLoopT bC.retry pC 0 = (RunResult.ok vC, attC, cC))
    (hpostC : bC.post s3 pC vC = (s3b, none)) :
    orchestrateF g fuel (some ida) s0 =
      some (Except.ok s3b, [(ida, attA), (idb, attB), (idc, attC)]) := by
  obtain ⟨f, rfl⟩ : ∃ f, fuel = f + 3 := ⟨fuel - 3, by omega⟩
  have hC : ∀ f2 : Nat, orchestrateF g (f2 + 1) (some idc) s2b =
      some (Except.ok s3b, [(idc, attC)]) := by
    intro f2
    rw [orchestrateF]
    simp only [runNodeWith, hgc, hprepC, hexecC, hpostC, getNextNode_nil]
  have hB : ∀ f2 : Nat, orchestrateF g (f2 + 2) (some idb) s1b =
      some (Except.ok s3b, [(idb, attB), (idc, attC)]) := by
    intro f2
    show orchestrateF g (f2 + 1 + 1) (some idb) s1b = _
    rw [orchestrateF]
    simp only [runNodeWith, hgb, hprepB, hexecB, hpostB, getNextNode_default,
      hC, List.singleton_append]
  show orchestrateF g (f + 2 + 1) (some ida) s0 = _
  rw [orchestrateF]
  simp only [runNodeWith, hga, hprepA, hexecA, hpostA, getNextNode_default,
    hB, List.singleton_append]

/-- Witness for C4 at `graphW4` (`10 -default-> 11 -default-> 12`, each
node `stepS`) from the shared context 0: visits 10, 11, 12 in order and
ends with context 3. -/
theorem chain_traversal_order_and_termination_witness :
    orchestrateF graphW4 3 (some 10) 0 =
      some (Except.ok 3, [(10, [0]), (11, [0]), (12, [0])]) :=
  chain_traversal_order_and_termination Nat Nat Nat Nat graphW4 10 11 12
    stepS stepS stepS 0 0 1 1 2 2 3 0 1 2 1 2 3 [0] [0] [0] 0 0 0 3
    (by decide) rfl rfl rfl rfl rfl rfl rfl rfl rfl rfl rfl rfl
